import Mathlib

/-!
Shallow embedding of the `dbConvert` class from `scripts/build/dbConvert.mjs`
(fade-compendiums repository).

The converter reads a flat key-value document store (one JSON object), splits
it into folder documents and content documents, nests embedded child documents
into their parents, sanitizes names, and writes one JSON file per top-level
document.  Strings are modelled as Lean `String`, the store as an association
list `List (String × Doc)` in the iteration order of `Object.entries` (keys of
a parsed JSON object are unique, so theorems that need it carry a `Nodup`
hypothesis on the key list).  File contents are modelled structurally
(`FileContent`); since `JSON.stringify` with fixed indentation is a
deterministic injective serializer, equality of the structural values
coincides with byte equality of the emitted files.
-/

namespace DbConvert

/-- A document record from the store.  The converter reads only the `name`
and `folder` fields of a record; all other fields are opaque and represented
by `payload`.  `name = none` models an absent / null / non-string `name`
(the JS code checks `typeof !== 'string'`); `folder = none` models an absent
or null `folder`. -/
structure Doc where
  name : Option String
  folder : Option String
  payload : Nat
deriving Repr, DecidableEq

/-- A top-level document as written to disk: the shallow copy
`{ ...document }` made by `organizeDocuments`, plus the optional `embedded`
array attached when embedded children were grouped under its key. -/
structure OutDoc where
  base : Doc
  embedded : Option (List Doc)
deriving Repr, DecidableEq

/-! ### Name sanitization (`sanitizeFilename`)

JS source:
```
if (!filename || typeof filename !== 'string') return 'unnamed';
return filename
    .replace(<invalid-char-class, one or more>, underscore)
    .replace(<two or more underscores>, underscore)
    .replace(<leading or trailing underscores>, empty)
    .trim() || 'unnamed';
```
The invalid character class is the ten listed characters together with the
JS whitespace class.  Each stage is translated separately below. -/

/-- The characters matched by the JS whitespace class inside the regex
character class of `sanitizeFilename` (the class of the `s` escape). -/
def isJsWs (c : Char) : Bool :=
  c = '\t' || c = '\n' || c = '\x0b' || c = '\x0c' || c = '\r' || c = ' ' ||
  c = '\u00a0' || c = '\u1680' ||
  ('\u2000' ≤ c && c ≤ '\u200a') ||
  c = '\u2028' || c = '\u2029' || c = '\u202f' || c = '\u205f' ||
  c = '\u3000' || c = '\ufeff'

/-- The character class of the first `replace` in `sanitizeFilename`:
the ten explicit characters plus JS whitespace. -/
def isInvalid (c : Char) : Bool :=
  c = '<' || c = '>' || c = ':' || c = '"' || c = '|' || c = '?' || c = '*' ||
  c = '\\' || c = '/' || c = '&' || isJsWs c

/-- First `replace`: substitute every maximal run of invalid characters with
a single underscore.  The boolean flag records whether the previous character
was part of an invalid run (state-machine rendering of the global regex
replace). -/
def replRunsAux : Bool → List Char → List Char
  | _, [] => []
  | prevInv, c :: rest =>
    if isInvalid c then
      (if prevInv then [] else ['_']) ++ replRunsAux true rest
    else c :: replRunsAux false rest

/-- First `replace`, starting outside an invalid run. -/
def replRuns (l : List Char) : List Char := replRunsAux false l

/-- Second `replace`: collapse every run of two or more underscores to a
single underscore (equivalently: every maximal underscore run becomes one
underscore).  The flag records whether the previous character was an
underscore of a run already emitted. -/
def collapseAux : Bool → List Char → List Char
  | _, [] => []
  | prevU, c :: rest =>
    if c = '_' then
      (if prevU then [] else ['_']) ++ collapseAux true rest
    else c :: collapseAux false rest

/-- Second `replace`, starting outside an underscore run. -/
def collapseU (l : List Char) : List Char := collapseAux false l

/-- Underscore test used by the third `replace`. -/
def isU (c : Char) : Bool := c = '_'

/-- Third `replace`: remove leading and trailing underscores. -/
def stripU (l : List Char) : List Char :=
  List.rdropWhile isU (List.dropWhile isU l)

/-- `String.prototype.trim`: remove leading and trailing JS whitespace. -/
def jsTrim (l : List Char) : List Char :=
  List.rdropWhile isJsWs (List.dropWhile isJsWs l)

/-- The four-stage pipeline applied to the character list of a non-empty
string input. -/
def sanitizeCore (l : List Char) : List Char :=
  jsTrim (stripU (collapseU (replRuns l)))

/-- `sanitizeFilename`.  `none` models a null / missing / non-string input
(rejected by the `typeof` guard); a falsy (empty) string and an empty
pipeline result both fall back to the literal `unnamed`. -/
def sanitizeFilename : Option String → String
  | none => "unnamed"
  | some s =>
    if s.data.isEmpty then "unnamed"
    else
      let r := sanitizeCore s.data
      if r.isEmpty then "unnamed" else String.mk r

/-- `sanitizeFilename` restricted to genuine string inputs. -/
def sanitizeStr (s : String) : String := sanitizeFilename (some s)

/-! ### Key parsing and classification

`organizeDocuments` skips keys starting with the string bang-folders-bang,
matches the remaining keys against the anchored regex
`caret bang ([^bang]+) bang (.+) dollar`, and treats a match whose type
section contains a dot as an embedded document (splitting both sections on
dots and requiring both id halves truthy).  `extractFolders` independently
collects keys starting with just bang-folders (no trailing bang). -/

/-- `String.prototype.startsWith` on our string model. -/
def strStarts (p s : String) : Bool := p.data.isPrefixOf s.data

/-- A line terminator for the JS dot metacharacter (which matches any
character except these four). -/
def isLineTerm (c : Char) : Bool :=
  c = '\n' || c = '\r' || c = '\u2028' || c = '\u2029'

/-- The anchored match `caret bang ([^bang]+) bang (.+) dollar` performed by
`organizeDocuments`.  Returns the type section and id section on a match.
The type section is the non-empty run of non-bang characters after the
leading bang; the id section is the non-empty remainder after the second
bang, which the dot metacharacter forbids from containing a line
terminator. -/
def parseKey (k : String) : Option (String × String) :=
  match k.data with
  | [] => none
  | c :: rest =>
    if c = '!' then
      match rest.takeWhile (fun d => !(d = '!')), rest.dropWhile (fun d => !(d = '!')) with
      | [], _ => none
      | t :: ts, '!' :: ids =>
        if !ids.isEmpty && ids.all (fun d => !isLineTerm d) then
          some (String.mk (t :: ts), String.mk ids)
        else none
      | _ :: _, _ => none
    else none

/-- `String.prototype.split` on a single-character separator: all pieces
between occurrences of the separator, empty pieces preserved. -/
def splitDot : List Char → List (List Char)
  | [] => [[]]
  | c :: rest =>
    if c = '.' then [] :: splitDot rest
    else
      match splitDot rest with
      | [] => [[c]]
      | p :: ps => (c :: p) :: ps

/-- Classification of a store key by `organizeDocuments`:
skipped folder key, top-level content document, embedded document (with its
computed parent key, child type and child id), or silently dropped. -/
inductive KeyKind where
  | folderDoc : KeyKind
  | content : String → String → KeyKind
  | emb : String → String → String → KeyKind
  | skip : KeyKind
deriving Repr, DecidableEq

/-- `true` exactly on the `content` variant. -/
def KeyKind.isContent : KeyKind → Bool
  | .content _ _ => true
  | _ => false

/-- The key classification performed inside `organizeDocuments`' first loop:
skip keys with the bang-folders-bang prefix; on a regex match, a dotted type
section is embedded when both id halves (split on dots, first two pieces)
are present and non-empty, and silently dropped otherwise; an undotted type
section is a top-level content document; a failed match is silently
dropped. -/
def classifyKey (k : String) : KeyKind :=
  if strStarts "!folders!" k then .folderDoc
  else
    match parseKey k with
    | none => .skip
    | some (ts, ids) =>
      if ts.data.contains '.' then
        let tparts := splitDot ts.data
        let iparts := splitDot ids.data
        let parentType := tparts.headD []
        let childType := (tparts.drop 1).headD []
        let parentId := iparts.headD []
        match (iparts.drop 1).head? with
        | none => .skip
        | some childId =>
          if !parentId.isEmpty && !childId.isEmpty then
            .emb (String.mk ('!' :: parentType ++ '!' :: parentId))
              (String.mk childType) (String.mk childId)
          else .skip
      else .content ts ids

/-! ### Association-list operations mirroring JS object updates -/

/-- Lookup in an insertion-ordered association list (`obj[k]`). -/
def assocFind {α : Type} (m : List (String × α)) (k : String) : Option α :=
  (m.find? (fun e => e.1 = k)).map (fun e => e.2)

/-- `k in obj`. -/
def hasKeyB {α : Type} (m : List (String × α)) (k : String) : Bool :=
  m.any (fun e => e.1 = k)

/-- `obj[k] = v`: overwrite in place if present, else append (JS object
insertion order). -/
def assocSet {α : Type} (m : List (String × α)) (k : String) (v : α) :
    List (String × α) :=
  if hasKeyB m k then m.map (fun e => if e.1 = k then (k, v) else e)
  else m ++ [(k, v)]

/-- Push `d` onto the group of `pk`, creating the group on first use
(the `embeddedDocuments[parentKey]` accumulation). -/
def groupAdd (g : List (String × List Doc)) (pk : String) (d : Doc) :
    List (String × List Doc) :=
  if hasKeyB g pk then
    g.map (fun e => if e.1 = pk then (e.1, e.2 ++ [d]) else e)
  else g ++ [(pk, [d])]

/-! ### `organizeDocuments` -/

/-- One iteration of `organizeDocuments`' first loop over the store:
a content key is stored (by its full original key) into the top-level map;
an embedded record is pushed onto its parent-key group; folder and dropped
keys leave the accumulator unchanged. -/
def orgStep (acc : List (String × Doc) × List (String × List Doc))
    (kv : String × Doc) :
    List (String × Doc) × List (String × List Doc) :=
  match classifyKey kv.1 with
  | .content _ _ => (assocSet acc.1 kv.1 kv.2, acc.2)
  | .emb pk _ _ => (acc.1, groupAdd acc.2 pk kv.2)
  | _ => acc

/-- The first loop of `organizeDocuments`: partition the store into the
top-level document map and the embedded-document groups. -/
def organizePass (store : List (String × Doc)) :
    List (String × Doc) × List (String × List Doc) :=
  store.foldl orgStep ([], [])

/-- `organizeDocuments`: after the partition, the second loop attaches each
group's bodies (in push order) as the `embedded` array of the parent's
shallow copy when the parent key exists in the top-level map; parents
without a group get no `embedded` field. -/
def organizeDocuments (store : List (String × Doc)) : List (String × OutDoc) :=
  let r := organizePass store
  r.1.map (fun e => (e.1, { base := e.2, embedded := assocFind r.2 e.1 }))

/-! ### Folder extraction and folder-path resolution -/

/-- `extractFolders`' collection loop: every entry whose key starts with
bang-folders (note: no trailing bang) is collected, in store order, keyed by
its original key. -/
def foldersOf (store : List (String × Doc)) : List (String × Doc) :=
  store.filter (fun kv => strStarts "!folders" kv.1)

/-- JS truthiness of the `folder` field value (absent / null / empty string
are falsy). -/
def truthyOpt : Option String → Bool
  | none => false
  | some s => !s.data.isEmpty

/-- The lookup key built by `resolveFolderPath`. -/
def folderKeyOf (fid : String) : String := "!folders!" ++ fid

/-- The `while (currentFolderId)` loop of `resolveFolderPath`, with explicit
fuel (the JS loop terminates only on acyclic folder graphs; the spec leaves
cyclic graphs undefined).  On a missing folder reference the loop warns
(second component `true`) and stops with the path accumulated so far;
otherwise it prepends the sanitized folder name and continues with the
folder's own parent. -/
def folderWalk (fds : List (String × Doc)) : Nat → Option String →
    List String × Bool
  | 0, _ => ([], false)
  | _ + 1, none => ([], false)
  | fuel + 1, some fid =>
    if fid.data.isEmpty then ([], false)
    else
      match assocFind fds (folderKeyOf fid) with
      | none => ([], true)
      | some fd =>
        let r := folderWalk fds fuel fd.folder
        (r.1 ++ [sanitizeFilename fd.name], r.2)

/-- `resolveFolderPath`: root for a falsy `folder` field, otherwise the
walk.  Fuel `fds.length + 1` is enough for every acyclic chain, since each
successful step consumes a distinct folder document. -/
def resolveFolderPath (fds : List (String × Doc)) (d : Doc) :
    List String × Bool :=
  if truthyOpt d.folder then folderWalk fds (fds.length + 1) d.folder
  else ([], false)

/-! ### File output model

Paths are segment lists relative to the process working directory; the
output directory of pack `p` is `packsrc/p`.  File contents are the
structural values serialized by `JSON.stringify(_, null, 2)`. -/

/-- Content of one emitted file. -/
inductive FileContent where
  | foldersJson : List (String × Doc) → FileContent
  | docJson : OutDoc → FileContent
deriving Repr, DecidableEq

/-- Output directory of a pack (`path.join(process.cwd(), "packsrc", packName)`). -/
def packOutputDir (packName : String) : List String := ["packsrc", packName]

/-- Output filename of a content document (`sanitizedName + ".json"`). -/
def docFileName (d : Doc) : String := sanitizeFilename d.name ++ ".json"

/-- `extractFolders`' file output: one combined `_folders.json` at the pack
output root when the collected mapping is non-empty, no file otherwise. -/
def folderWrites (outDir : List String) (store : List (String × Doc)) :
    List (List String × FileContent) :=
  let f := foldersOf store
  if f.isEmpty then [] else [(outDir ++ ["_folders.json"], .foldersJson f)]

/-- One attempted document write: `fs.writeFile` either succeeds or throws,
decided by the environment oracle on the target path (the oracle also stands
for a failing `fs.mkdir` of the same iteration's directory). -/
def writeOne (oracle : List String → Bool) (p : List String)
    (c : FileContent) : Except String (List String × FileContent) :=
  if oracle p then Except.error "write failed" else Except.ok (p, c)

/-- The write loop of `extractDocuments` over the organized top-level
documents: per document, resolve the folder path, build
`outDir/folderPath/sanitizedName.json`, attempt the write; a throw is caught
and logged and the loop continues; a success is recorded and counted.
Returns the successful write events in order and the reported count. -/
def extractDocsLoop (oracle : List String → Bool) (outDir : List String)
    (fds : List (String × Doc)) :
    List (String × OutDoc) → List (List String × FileContent) × Nat
  | [] => ([], 0)
  | e :: rest =>
    let fp := (resolveFolderPath fds e.2.base).1
    let full := outDir ++ fp ++ [docFileName e.2.base]
    match writeOne oracle full (.docJson e.2) with
    | Except.error _ => extractDocsLoop oracle outDir fds rest
    | Except.ok w =>
      let r := extractDocsLoop oracle outDir fds rest
      (w :: r.1, r.2 + 1)

/-- All write events of one `extract` run (folder file first, then the
document loop) together with the reported document count. -/
def allWrites (oracle : List String → Bool) (outDir : List String)
    (store : List (String × Doc)) :
    List (List String × FileContent) × Nat :=
  let dw := extractDocsLoop oracle outDir (foldersOf store)
    (organizeDocuments store)
  (folderWrites outDir store ++ dw.1, dw.2)

/-- Write events of a run in which every write succeeds. -/
def writesOf (outDir : List String) (store : List (String × Doc)) :
    List (List String × FileContent) :=
  (allWrites (fun _ => false) outDir store).1

/-! ### Filesystem state and the two pre-clean orderings -/

/-- A filesystem: a partial map from paths to file contents. -/
def FS : Type := List String → Option FileContent

/-- Recursive deletion of everything under (and at) a directory path
(`fs.rm(dir, recursive, force)`). -/
def deleteUnder (pre : List String) (fs : FS) : FS :=
  fun p => if pre <+: p then none else fs p

/-- Apply write events in order; a later write to the same path wins. -/
def applyWrites (ws : List (List String × FileContent)) (fs : FS) : FS :=
  ws.foldl (fun f w => fun p => if p = w.1 then some w.2 else f p) fs

/-- The extraction as the spec orders it: the pre-existing output directory
is deleted first and every write happens afterwards.  Modelled from the
spec: the source calls `deletePackFolder` without `await`, so it does NOT
enforce this ordering; this definition is the claimed behavior, for
comparison. -/
def extractFSSpecOrder (outDir : List String) (store : List (String × Doc))
    (fs : FS) : FS :=
  applyWrites (writesOf outDir store) (deleteUnder outDir fs)

/-- An admissible completion order of the source's un-awaited
`deletePackFolder` call: the recursive `fs.rm` started by `extract` is a
pending promise that is never awaited, so the event loop may complete it
after the run's writes.  Under that schedule the deletion lands last. -/
def extractFSDeleteLast (outDir : List String) (store : List (String × Doc))
    (fs : FS) : FS :=
  deleteUnder outDir (applyWrites (writesOf outDir store) fs)

/-! ### `deletePackFolder` and `extract` control flow -/

/-- `deletePackFolder` as an awaited computation: `fs.access` on a missing
directory throws ENOENT, which is caught and logged (success); when the
directory exists, a failing `fs.rm` is rethrown as a wrapped error.
`dirExists` and `rmFails` are the environment's answers to the two calls. -/
def deletePackFolder (dirExists rmFails : Bool) : Except String Unit :=
  if dirExists then
    if rmFails then Except.error "Failed to delete pack folder" else Except.ok ()
  else Except.ok ()

/-- The awaited control flow of `extract`: check the db file (missing file
is a thrown not-found error), call `deletePackFolder` WITHOUT `await` (its
result is discarded, exactly as in the source, where the returned promise is
dropped), then parse and emit all writes.  Parsing is outside the claims and
the parsed store is passed directly. -/
def extract (dbPresent dirExists rmFails : Bool)
    (outDir : List String) (store : List (String × Doc)) :
    Except String (List (List String × FileContent) × Nat) :=
  if dbPresent then
    let _ := deletePackFolder dirExists rmFails
    Except.ok (allWrites (fun _ => false) outDir store)
  else Except.error "Database file not found"

/-! ### Proof-scaffolding definitions

The two components of `organizePass`' accumulator evolve independently;
`tlStep` and `gStep` are its two projections, and `contentEntries`, `embFor`
and `mergeG` state the closed forms proved below. -/

/-- The effect of one `organizeDocuments` iteration on the top-level map. -/
def tlStep (a : List (String × Doc)) (kv : String × Doc) :
    List (String × Doc) :=
  match classifyKey kv.1 with
  | .content _ _ => assocSet a kv.1 kv.2
  | _ => a

/-- The effect of one `organizeDocuments` iteration on the groups. -/
def gStep (b : List (String × List Doc)) (kv : String × Doc) :
    List (String × List Doc) :=
  match classifyKey kv.1 with
  | .emb pk _ _ => groupAdd b pk kv.2
  | _ => b

/-- The store entries classified as top-level content documents, in store
order. -/
def contentEntries (store : List (String × Doc)) : List (String × Doc) :=
  store.filter (fun kv => (classifyKey kv.1).isContent)

/-- The bodies of the embedded records whose computed parent key is `q`, in
store order. -/
def embFor (store : List (String × Doc)) (q : String) : List Doc :=
  store.filterMap (fun kv =>
    match classifyKey kv.1 with
    | .emb pk _ _ => if pk = q then some kv.2 else none
    | _ => none)

/-- Merge an existing group with newly pushed bodies: a group is only
created when a body is pushed. -/
def mergeG : Option (List Doc) → List Doc → Option (List Doc)
  | none, [] => none
  | none, e :: es => some (e :: es)
  | some xs, es => some (xs ++ es)

/-- The `embedded` field the second loop of `organizeDocuments` gives the
parent at key `q`. -/
def embOptFor (store : List (String × Doc)) (q : String) :
    Option (List Doc) :=
  if (embFor store q).isEmpty then none else some (embFor store q)

/-- The write target (path and content) of every organized top-level
document, in loop order: the file each iteration of `extractDocuments`
attempts to write. -/
def writeTargets (outDir : List String) (fds : List (String × Doc))
    (docs : List (String × OutDoc)) : List (List String × FileContent) :=
  docs.map (fun e =>
    (outDir ++ (resolveFolderPath fds e.2.base).1 ++ [docFileName e.2.base],
      FileContent.docJson e.2))

/-- The store's embedded records: original key, computed parent key and
body, in store order. -/
def embTriples (store : List (String × Doc)) :
    List (String × String × Doc) :=
  store.filterMap (fun kv =>
    match classifyKey kv.1 with
    | .emb pk _ _ => some (kv.1, pk, kv.2)
    | _ => none)

/-! ## Lemmas: the sanitization pipeline

The key invariant: every output of `sanitizeCore` contains no invalid
character, no two adjacent underscores, and neither starts nor ends with an
underscore — and `sanitizeCore` is the identity on such lists. -/

/-- No two adjacent characters are both underscores. -/
def NeU (a b : Char) : Prop := ¬(a = '_' ∧ b = '_')

theorem isInvalid_of_ws {c : Char} (h : isJsWs c = true) : isInvalid c = true := by
  unfold isInvalid
  rw [h]
  simp

theorem ws_false_of_valid {c : Char} (h : isInvalid c = false) :
    isJsWs c = false := by
  cases hw : isJsWs c
  · rfl
  · rw [isInvalid_of_ws hw] at h
    cases h

theorem mem_replRunsAux {l : List Char} :
    ∀ {b : Bool} {c : Char}, c ∈ replRunsAux b l → isInvalid c = false := by
  induction l with
  | nil => intro b c h; simp [replRunsAux] at h
  | cons x xs ih =>
    intro b c h
    unfold replRunsAux at h
    by_cases hx : isInvalid x = true
    · rw [if_pos hx] at h
      rcases List.mem_append.1 h with h1 | h2
      · cases b with
        | true => simp at h1
        | false =>
          simp at h1
          subst h1
          decide
      · exact ih h2
    · rw [if_neg hx] at h
      rcases List.mem_cons.1 h with h1 | h2
      · subst h1
        exact Bool.not_eq_true _ ▸ Bool.of_not_eq_true hx
      · exact ih h2

theorem replRunsAux_id {l : List Char} (hl : ∀ c ∈ l, isInvalid c = false) :
    ∀ b : Bool, replRunsAux b l = l := by
  induction l with
  | nil => intro b; rfl
  | cons x xs ih =>
    intro b
    unfold replRunsAux
    rw [if_neg (by simp [hl x (List.mem_cons_self x xs)])]
    rw [ih (fun c hc => hl c (List.mem_cons_of_mem x hc)) false]

theorem mem_collapseAux {l : List Char} (hl : ∀ c ∈ l, isInvalid c = false) :
    ∀ {b : Bool} {c : Char}, c ∈ collapseAux b l → isInvalid c = false := by
  induction l with
  | nil => intro b c h; simp [collapseAux] at h
  | cons x xs ih =>
    intro b c h
    have hxs : ∀ c ∈ xs, isInvalid c = false :=
      fun c hc => hl c (List.mem_cons_of_mem x hc)
    unfold collapseAux at h
    by_cases hx : x = '_'
    · rw [if_pos hx] at h
      rcases List.mem_append.1 h with h1 | h2
      · cases b with
        | true => simp at h1
        | false =>
          simp at h1
          subst h1
          decide
      · exact ih hxs h2
    · rw [if_neg hx] at h
      rcases List.mem_cons.1 h with h1 | h2
      · subst h1
        exact hl c (List.mem_cons_self c xs)
      · exact ih hxs h2

theorem collapseAux_true_head :
    ∀ {l : List Char} {c : Char} {t : List Char},
      collapseAux true l = c :: t → ¬c = '_' := by
  intro l
  induction l with
  | nil => intro c t h; simp [collapseAux] at h
  | cons x xs ih =>
    intro c t h
    unfold collapseAux at h
    by_cases hx : x = '_'
    · rw [if_pos hx] at h
      exact ih h
    · rw [if_neg hx] at h
      rw [List.cons_eq_cons] at h
      rw [← h.1]
      exact hx

theorem collapseAux_chain (l : List Char) :
    ∀ b : Bool, List.Chain' NeU (collapseAux b l) := by
  induction l with
  | nil => intro b; exact List.chain'_nil
  | cons x xs ih =>
    intro b
    unfold collapseAux
    by_cases hx : x = '_'
    · rw [if_pos hx]
      cases b with
      | true => exact ih true
      | false =>
        refine List.chain'_cons'.2 ⟨?_, ih true⟩
        intro y hy
        cases hc : collapseAux true xs with
        | nil => rw [hc] at hy; simp at hy
        | cons a t =>
          rw [hc] at hy
          simp at hy
          subst hy
          exact fun hp => collapseAux_true_head hc hp.2
    · rw [if_neg hx]
      refine List.chain'_cons'.2 ⟨?_, ih false⟩
      intro y _
      exact fun hp => hx hp.1

theorem collapseAux_id (l : List Char) (h : List.Chain' NeU l) :
    collapseAux false l = l ∧
      (l.head? ≠ some '_' → collapseAux true l = l) := by
  induction l with
  | nil => exact ⟨rfl, fun _ => rfl⟩
  | cons x xs ih =>
    obtain ⟨h1, h2⟩ := List.chain'_cons'.1 h
    obtain ⟨ihf, iht⟩ := ih h2
    have hxs : xs.head? ≠ some '_' ∨ ¬x = '_' := by
      cases hxsh : xs.head? with
      | none => exact Or.inl (by simp)
      | some y =>
        by_cases hx : x = '_'
        · left
          intro hcon
          have hy : y = '_' := by injection hcon
          exact h1 y (by simp [hxsh]) ⟨hx, hy⟩
        · exact Or.inr hx
    constructor
    · unfold collapseAux
      by_cases hx : x = '_'
      · rw [if_pos hx]
        rcases hxs with hh | hh
        · rw [iht hh, hx]
          rfl
        · exact absurd hx hh
      · rw [if_neg hx, ihf]
    · intro hhd
      have hx : ¬x = '_' := by
        intro hcon
        exact hhd (by rw [hcon]; rfl)
      unfold collapseAux
      rw [if_neg hx, ihf]

theorem dropWhile_head_ne {p : Char → Bool} :
    ∀ {l : List Char} {c : Char} {t : List Char},
      List.dropWhile p l = c :: t → p c = false := by
  intro l
  induction l with
  | nil => intro c t h; simp at h
  | cons x xs ih =>
    intro c t h
    rw [List.dropWhile_cons] at h
    split at h
    · exact ih h
    · rw [List.cons_eq_cons] at h
      rw [← h.1]
      next hp => exact Bool.not_eq_true _ ▸ Bool.of_not_eq_true hp

theorem mem_stripU {l : List Char} {c : Char} (h : c ∈ stripU l) : c ∈ l :=
  ((List.dropWhile_suffix isU).sublist.subset)
    (( List.rdropWhile_prefix isU _).sublist.subset h)

theorem stripU_chain {l : List Char} (h : List.Chain' NeU l) :
    List.Chain' NeU (stripU l) :=
  List.Chain'.prefix (h.suffix (List.dropWhile_suffix isU)) ( List.rdropWhile_prefix isU _)

theorem stripU_head (l : List Char) : (stripU l).head? ≠ some '_' := by
  cases hs : stripU l with
  | nil => simp
  | cons c t =>
    have hpre := List.rdropWhile_prefix isU (List.dropWhile isU l)
    rw [stripU] at hs
    rw [hs] at hpre
    obtain ⟨r, hr⟩ := hpre
    have hd : List.dropWhile isU l = c :: (t ++ r) := by
      rw [← hr]
      rfl
    have := dropWhile_head_ne hd
    simp [isU] at this
    simp [this]

theorem stripU_last (l : List Char) : (stripU l).getLast? ≠ some '_' := by
  by_cases hn : stripU l = []
  · rw [hn]
    simp
  · rw [List.getLast?_eq_getLast _ hn]
    have := List.rdropWhile_last_not isU (List.dropWhile isU l) hn
    simp [isU] at this
    simp only [ne_eq, Option.some_inj]
    exact this

theorem stripU_id {l : List Char} (h1 : l.head? ≠ some '_')
    (h2 : l.getLast? ≠ some '_') : stripU l = l := by
  unfold stripU
  have hd : List.dropWhile isU l = l := by
    cases l with
    | nil => rfl
    | cons c t =>
      rw [List.dropWhile_cons, if_neg]
      intro hc
      simp [isU] at hc
      exact h1 (by rw [hc]; rfl)
  rw [hd]
  rw [List.rdropWhile_eq_self_iff.2]
  intro hl
  rw [List.getLast?_eq_getLast _ hl] at h2
  simp [isU]
  intro hcon
  exact h2 (by rw [hcon])

theorem jsTrim_id {l : List Char} (h : ∀ c ∈ l, isJsWs c = false) :
    jsTrim l = l := by
  unfold jsTrim
  have hd : List.dropWhile isJsWs l = l := by
    cases l with
    | nil => rfl
    | cons c t =>
      rw [List.dropWhile_cons, if_neg]
      simp [h c (List.mem_cons_self c t)]
  rw [hd]
  rw [List.rdropWhile_eq_self_iff.2]
  intro hl
  simp [h (l.getLast hl) (List.getLast_mem hl)]

theorem sanitizeCore_valid (l : List Char) :
    ∀ c ∈ sanitizeCore l, isInvalid c = false := by
  intro c hc
  unfold sanitizeCore at hc
  have h2 : ∀ c ∈ collapseU (replRuns l), isInvalid c = false :=
    fun c hc => mem_collapseAux (fun c hc => mem_replRunsAux hc) hc
  have h3 : ∀ c ∈ stripU (collapseU (replRuns l)), isInvalid c = false :=
    fun c hc => h2 c (mem_stripU hc)
  rw [jsTrim_id (fun c hc => ws_false_of_valid (h3 c hc))] at hc
  exact h3 c hc

theorem sanitizeCore_eq_strip (l : List Char) :
    sanitizeCore l = stripU (collapseU (replRuns l)) := by
  unfold sanitizeCore
  apply jsTrim_id
  intro c hc
  exact ws_false_of_valid
    (mem_collapseAux (fun c hc => mem_replRunsAux hc) (mem_stripU hc))

theorem sanitizeCore_chain (l : List Char) :
    List.Chain' NeU (sanitizeCore l) := by
  rw [sanitizeCore_eq_strip]
  exact stripU_chain (collapseAux_chain (replRuns l) false)

theorem sanitizeCore_head (l : List Char) :
    (sanitizeCore l).head? ≠ some '_' := by
  rw [sanitizeCore_eq_strip]
  exact stripU_head _

theorem sanitizeCore_last (l : List Char) :
    (sanitizeCore l).getLast? ≠ some '_' := by
  rw [sanitizeCore_eq_strip]
  exact stripU_last _

theorem sanitizeCore_id {l : List Char} (hv : ∀ c ∈ l, isInvalid c = false)
    (hc : List.Chain' NeU l) (hh : l.head? ≠ some '_')
    (hl : l.getLast? ≠ some '_') : sanitizeCore l = l := by
  unfold sanitizeCore
  rw [show replRuns l = l from replRunsAux_id hv false]
  rw [show collapseU l = l from (collapseAux_id l hc).1]
  rw [stripU_id hh hl]
  exact jsTrim_id (fun c hcl => ws_false_of_valid (hv c hcl))

theorem sanitizeStr_empty : sanitizeStr "" = "unnamed" := by decide

theorem sanitizeStr_unnamed : sanitizeStr "unnamed" = "unnamed" := by decide

theorem sanitizeStr_idem (s : String) :
    sanitizeStr (sanitizeStr s) = sanitizeStr s := by
  by_cases h1 : s.data.isEmpty = true
  · have hs : sanitizeStr s = "unnamed" := by
      simp only [sanitizeStr, sanitizeFilename]
      rw [if_pos h1]
    rw [hs]
    exact sanitizeStr_unnamed
  · by_cases h2 : (sanitizeCore s.data).isEmpty = true
    · have hs : sanitizeStr s = "unnamed" := by
        simp only [sanitizeStr, sanitizeFilename]
        rw [if_neg h1, if_pos h2]
      rw [hs]
      exact sanitizeStr_unnamed
    · have hs : sanitizeStr s = String.mk (sanitizeCore s.data) := by
        simp only [sanitizeStr, sanitizeFilename]
        rw [if_neg h1, if_neg h2]
      rw [hs]
      have hid : sanitizeCore (sanitizeCore s.data) = sanitizeCore s.data :=
        sanitizeCore_id (sanitizeCore_valid s.data) (sanitizeCore_chain s.data)
          (sanitizeCore_head s.data) (sanitizeCore_last s.data)
      simp only [sanitizeStr, sanitizeFilename]
      rw [hid, if_neg h2]
      rw [if_neg h2]

theorem sanitizeFilename_data_ne (x : Option String) :
    (sanitizeFilename x).data ≠ [] := by
  cases x with
  | none => decide
  | some s =>
    simp only [sanitizeFilename]
    split
    · decide
    · split
      · decide
      · next h2 =>
        rw [show (String.mk (sanitizeCore s.data)).data = sanitizeCore s.data from rfl]
        intro hcon
        exact h2 (List.isEmpty_iff.2 hcon)

/-- C6: the name-sanitization function is idempotent — for every string x,
sanitize(sanitize(x)) equals sanitize(x) — and both the empty string and a
null/non-string input sanitize to the literal string unnamed. -/
theorem C6_sanitize_idempotent :
    (∀ s : String, sanitizeStr (sanitizeStr s) = sanitizeStr s) ∧
      sanitizeStr "" = "unnamed" ∧ sanitizeFilename none = "unnamed" :=
  ⟨sanitizeStr_idem, sanitizeStr_empty, rfl⟩

/-- C10: for every input (string or not), the sanitization function returns
a non-empty string; a string that reduces to nothing after replacement and
underscore-stripping (for example one consisting only of slashes, whitespace
or underscores) yields unnamed, so a content document's output filename is
never the bare extension dot-json. -/
theorem C10_sanitize_nonempty :
    (∀ x : Option String, sanitizeFilename x ≠ "") ∧
      (∀ d : Doc, docFileName d ≠ ".json") ∧
      sanitizeStr "///" = "unnamed" ∧ sanitizeStr " \t " = "unnamed" ∧
      sanitizeStr "___" = "unnamed" := by
  refine ⟨?_, ?_, by decide, by decide, by decide⟩
  · intro x hcon
    exact sanitizeFilename_data_ne x (congrArg String.data hcon)
  · intro d hcon
    have hd : (sanitizeFilename d.name).data ++ ".json".data = ".json".data := by
      have := congrArg String.data hcon
      rw [docFileName, String.data_append] at this
      exact this
    exact sanitizeFilename_data_ne d.name (List.append_left_eq_self.1 hd)

/-! ## Lemmas: the partition of `organizeDocuments` -/

theorem orgStep_eq (acc : List (String × Doc) × List (String × List Doc))
    (kv : String × Doc) :
    orgStep acc kv = (tlStep acc.1 kv, gStep acc.2 kv) := by
  cases h : classifyKey kv.1 <;> simp [orgStep, tlStep, gStep, h]

theorem organizePass_eq :
    ∀ (l : List (String × Doc)) (a : List (String × Doc))
      (b : List (String × List Doc)),
      l.foldl orgStep (a, b) = (l.foldl tlStep a, l.foldl gStep b) := by
  intro l
  induction l with
  | nil => intro a b; rfl
  | cons kv l ih =>
    intro a b
    rw [List.foldl_cons, List.foldl_cons, List.foldl_cons, orgStep_eq]
    exact ih _ _

theorem hasKeyB_false_iff {α : Type} (m : List (String × α)) (k : String) :
    hasKeyB m k = false ↔ ∀ e ∈ m, e.1 ≠ k := by
  simp [hasKeyB, List.any_eq_true]

theorem assocFind_eq_none {α : Type} {m : List (String × α)} {k : String}
    (h : hasKeyB m k = false) : assocFind m k = none := by
  rw [assocFind, List.find?_eq_none.2, Option.map_none']
  intro e he
  simpa using (hasKeyB_false_iff m k).1 h e he

theorem tlFold_eq :
    ∀ (l : List (String × Doc)) (a : List (String × Doc)),
      ((contentEntries l).map Prod.fst).Nodup →
      (∀ k ∈ (contentEntries l).map Prod.fst, hasKeyB a k = false) →
      l.foldl tlStep a = a ++ contentEntries l := by
  intro l
  induction l with
  | nil => intro a _ _; simp [contentEntries]
  | cons kv l ih =>
    intro a hnd hkeys
    rw [List.foldl_cons]
    by_cases hc : (classifyKey kv.1).isContent = true
    · have hce : contentEntries (kv :: l) = kv :: contentEntries l := by
        simp [contentEntries, List.filter_cons, hc]
      rw [hce] at hnd hkeys
      have hk1 : hasKeyB a kv.1 = false :=
        hkeys kv.1 (by simp)
      have hstep : tlStep a kv = a ++ [kv] := by
        unfold tlStep assocSet
        cases hcl : classifyKey kv.1 with
        | content ts ids => rw [if_neg (by simp [hk1])]
        | folderDoc => rw [hcl] at hc; simp [KeyKind.isContent] at hc
        | emb p c i => rw [hcl] at hc; simp [KeyKind.isContent] at hc
        | skip => rw [hcl] at hc; simp [KeyKind.isContent] at hc
      rw [hstep]
      have hnd' : ((contentEntries l).map Prod.fst).Nodup :=
        (List.nodup_cons.1 (by simpa using hnd)).2
      have hne : kv.1 ∉ (contentEntries l).map Prod.fst :=
        (List.nodup_cons.1 (by simpa using hnd)).1
      have hkeys' : ∀ k ∈ (contentEntries l).map Prod.fst,
          hasKeyB (a ++ [kv]) k = false := by
        intro k hk
        have h1 : hasKeyB a k = false := hkeys k (by simp [hk])
        have h2 : kv.1 ≠ k := fun hcon => hne (hcon ▸ hk)
        rw [hasKeyB, List.any_append]
        simp [hasKeyB] at h1
        simp [h2]
        exact h1
      rw [ih (a ++ [kv]) hnd' hkeys', hce, List.append_assoc]
      rfl
    · have hce : contentEntries (kv :: l) = contentEntries l := by
        simp [contentEntries, List.filter_cons, hc]
      rw [hce] at hnd hkeys
      have hstep : tlStep a kv = a := by
        unfold tlStep
        cases hcl : classifyKey kv.1 with
        | content ts ids => rw [hcl] at hc; simp [KeyKind.isContent] at hc
        | folderDoc => rfl
        | emb p c i => rfl
        | skip => rfl
      rw [hstep, ih a hnd hkeys, hce]

theorem contentKeys_nodup {store : List (String × Doc)}
    (hnd : (store.map Prod.fst).Nodup) :
    ((contentEntries store).map Prod.fst).Nodup :=
  ((List.filter_sublist store).map Prod.fst).nodup hnd

theorem organizePass_fst {store : List (String × Doc)}
    (hnd : (store.map Prod.fst).Nodup) :
    (organizePass store).1 = contentEntries store := by
  rw [organizePass, organizePass_eq]
  exact tlFold_eq store [] (contentKeys_nodup hnd) (fun k _ => rfl)

theorem assocFind_cons {α : Type} (x : String × α) (m : List (String × α))
    (q : String) :
    assocFind (x :: m) q = if x.1 = q then some x.2 else assocFind m q := by
  by_cases h : x.1 = q <;> simp [assocFind, List.find?_cons, h]

theorem assocFind_mapAdd (g : List (String × List Doc)) (pk : String)
    (d : Doc) (q : String) :
    assocFind (g.map (fun e => if e.1 = pk then (e.1, e.2 ++ [d]) else e)) q =
      if q = pk then (assocFind g q).map (fun xs => xs ++ [d])
      else assocFind g q := by
  induction g with
  | nil => by_cases hq : q = pk <;> simp [assocFind, hq]
  | cons e g ih =>
    rw [List.map_cons]
    by_cases hq : q = pk
    · rw [if_pos hq] at ih ⊢
      by_cases hep : e.1 = pk
      · rw [if_pos hep, assocFind_cons, assocFind_cons]
        have he : e.1 = q := hq ▸ hep
        rw [if_pos he, if_pos he]
        simp
      · rw [if_neg hep, assocFind_cons, assocFind_cons]
        have he : ¬e.1 = q := fun hcon => hep (hq ▸ hcon)
        rw [if_neg he, if_neg he, ih]
    · rw [if_neg hq] at ih ⊢
      by_cases hep : e.1 = pk
      · rw [if_pos hep, assocFind_cons, assocFind_cons]
        have he : ¬e.1 = q := fun hcon => hq (by rw [← hcon, hep])
        rw [if_neg he, if_neg he, ih]
      · rw [if_neg hep, assocFind_cons, assocFind_cons]
        by_cases he : e.1 = q
        · rw [if_pos he, if_pos he]
        · rw [if_neg he, if_neg he, ih]

theorem assocFind_append {α : Type} (m m' : List (String × α)) (q : String) :
    assocFind (m ++ m') q = (assocFind m q).or (assocFind m' q) := by
  unfold assocFind
  rw [List.find?_append]
  rcases hf : m.find? (fun e => decide (e.1 = q)) with _ | e <;> rw [hf] <;> simp

theorem groupAdd_find (g : List (String × List Doc)) (pk : String) (d : Doc)
    (q : String) :
    assocFind (groupAdd g pk d) q =
      if q = pk then some ((assocFind g pk).getD [] ++ [d])
      else assocFind g q := by
  unfold groupAdd
  by_cases hg : hasKeyB g pk = true
  · rw [if_pos hg, assocFind_mapAdd]
    by_cases hq : q = pk
    · rw [if_pos hq, if_pos hq]
      subst hq
      simp only [hasKeyB, List.any_eq_true] at hg
      obtain ⟨e, he, hpe⟩ := hg
      cases hfind : assocFind g q with
      | none =>
        have hf0 : g.find? (fun e => decide (e.1 = q)) = none := by
          unfold assocFind at hfind
          exact Option.map_eq_none'.1 hfind
        have := List.find?_eq_none.1 hf0 e he
        simp at hpe
        simp [hpe] at this
      | some xs => simp
    · rw [if_neg hq, if_neg hq]
  · rw [if_neg hg, assocFind_append]
    have hfg : assocFind g pk = none :=
      assocFind_eq_none (Bool.not_eq_true _ ▸ Bool.of_not_eq_true hg)
    by_cases hq : q = pk
    · subst hq
      rw [if_pos rfl, hfg, assocFind_cons]
      simp
    · rw [if_neg hq, assocFind_cons]
      rw [if_neg (fun hcon : pk = q => hq hcon.symm)]
      rcases assocFind g q with _ | xs <;> simp [assocFind]

theorem gFold_find :
    ∀ (l : List (String × Doc)) (g : List (String × List Doc)) (q : String),
      assocFind (l.foldl gStep g) q = mergeG (assocFind g q) (embFor l q) := by
  intro l
  induction l with
  | nil =>
    intro g q
    cases h : assocFind g q <;> simp [embFor, mergeG, h]
  | cons kv l ih =>
    intro g q
    rw [List.foldl_cons]
    cases hcl : classifyKey kv.1 with
    | emb pk ct ci =>
      have hstep : gStep g kv = groupAdd g pk kv.2 := by simp [gStep, hcl]
      have hef : embFor (kv :: l) q =
          if pk = q then kv.2 :: embFor l q else embFor l q := by
        by_cases hpq : pk = q <;>
          simp [embFor, List.filterMap_cons, hcl, hpq]
      rw [hstep, ih, hef, groupAdd_find]
      by_cases hpq : pk = q
      · rw [if_pos hpq, if_pos hpq.symm]
        subst hpq
        cases haf : assocFind g pk with
        | none => simp [mergeG]
        | some xs => simp [mergeG]
      · rw [if_neg hpq, if_neg (fun hcon : q = pk => hpq hcon.symm)]
    | folderDoc =>
      have hstep : gStep g kv = g := by simp [gStep, hcl]
      have hef : embFor (kv :: l) q = embFor l q := by
        simp [embFor, List.filterMap_cons, hcl]
      rw [hstep, ih, hef]
    | content ts ids =>
      have hstep : gStep g kv = g := by simp [gStep, hcl]
      have hef : embFor (kv :: l) q = embFor l q := by
        simp [embFor, List.filterMap_cons, hcl]
      rw [hstep, ih, hef]
    | skip =>
      have hstep : gStep g kv = g := by simp [gStep, hcl]
      have hef : embFor (kv :: l) q = embFor l q := by
        simp [embFor, List.filterMap_cons, hcl]
      rw [hstep, ih, hef]

theorem organizePass_snd_find (store : List (String × Doc)) (q : String) :
    assocFind (organizePass store).2 q = embOptFor store q := by
  rw [organizePass, organizePass_eq, gFold_find store [] q]
  rw [show assocFind ([] : List (String × List Doc)) q = none from rfl]
  cases h : embFor store q <;> simp [mergeG, embOptFor, h]

theorem organizeDocuments_eq {store : List (String × Doc)}
    (hnd : (store.map Prod.fst).Nodup) :
    organizeDocuments store = (contentEntries store).map
      (fun e => (e.1, { base := e.2, embedded := embOptFor store e.1 })) := by
  show (organizePass store).1.map _ = _
  rw [organizePass_fst hnd]
  apply List.map_congr_left
  intro e _
  rw [organizePass_snd_find]

theorem organizePass_skipmid {k : String} (h : classifyKey k = .skip)
    (pre post : List (String × Doc)) (d : Doc) :
    organizePass (pre ++ (k, d) :: post) = organizePass (pre ++ post) := by
  unfold organizePass
  rw [List.foldl_append, List.foldl_append, List.foldl_cons]
  rw [show orgStep (List.foldl orgStep ([], []) pre) (k, d) =
    List.foldl orgStep ([], []) pre from by simp [orgStep, h]]

theorem organizeDocuments_skipmid {k : String} (h : classifyKey k = .skip)
    (pre post : List (String × Doc)) (d : Doc) :
    organizeDocuments (pre ++ (k, d) :: post) =
      organizeDocuments (pre ++ post) := by
  unfold organizeDocuments
  rw [organizePass_skipmid h pre post d]

theorem foldersOf_skipmid {k : String} (h : strStarts "!folders" k = false)
    (pre post : List (String × Doc)) (d : Doc) :
    foldersOf (pre ++ (k, d) :: post) = foldersOf (pre ++ post) := by
  unfold foldersOf
  rw [List.filter_append, List.filter_append, List.filter_cons]
  simp [h]

/-! ## Lemmas: the write loop -/

theorem extractDocsLoop_eq (oracle : List String → Bool)
    (outDir : List String) (fds : List (String × Doc)) :
    ∀ docs : List (String × OutDoc),
      extractDocsLoop oracle outDir fds docs =
        ((writeTargets outDir fds docs).filter (fun w => !oracle w.1),
          ((writeTargets outDir fds docs).filter (fun w => !oracle w.1)).length) := by
  intro docs
  induction docs with
  | nil => rfl
  | cons e rest ih =>
    rw [show writeTargets outDir fds (e :: rest) =
      (outDir ++ (resolveFolderPath fds e.2.base).1 ++ [docFileName e.2.base],
        FileContent.docJson e.2) :: writeTargets outDir fds rest from rfl]
    rw [List.filter_cons]
    simp only [extractDocsLoop, writeOne]
    by_cases ho :
        oracle (outDir ++ ((resolveFolderPath fds e.2.base).1 ++
          [docFileName e.2.base])) = true
    · simp [ho, ih]
    · have ho' : oracle (outDir ++ ((resolveFolderPath fds e.2.base).1 ++
          [docFileName e.2.base])) = false :=
        Bool.not_eq_true _ ▸ Bool.of_not_eq_true ho
      simp [ho', ih]

theorem extractDocsLoop_nofail (outDir : List String)
    (fds : List (String × Doc)) (docs : List (String × OutDoc)) :
    extractDocsLoop (fun _ => false) outDir fds docs =
      (writeTargets outDir fds docs, docs.length) := by
  rw [extractDocsLoop_eq]
  have hf : (writeTargets outDir fds docs).filter (fun _ => !false) =
      writeTargets outDir fds docs := by
    simp
  rw [hf]
  simp [writeTargets]

theorem extractDocsLoop_mem_nofail {outDir : List String}
    {fds : List (String × Doc)} {docs : List (String × OutDoc)}
    {e : String × OutDoc} (he : e ∈ docs) :
    (outDir ++ (resolveFolderPath fds e.2.base).1 ++ [docFileName e.2.base],
      FileContent.docJson e.2) ∈
      (extractDocsLoop (fun _ => false) outDir fds docs).1 := by
  rw [extractDocsLoop_nofail]
  exact List.mem_map_of_mem _ he

/-- C8: during the write loop, a write failure for any single content
document is caught and does not abort the remaining documents: the loop's
results are exactly the attempted writes the failure oracle lets through,
every other document is still written, and the reported count equals the
number of documents successfully written — while a run with no failures
writes every organized document and reports the total. -/
theorem C8_write_failure_isolated :
    (∀ (oracle : List String → Bool) (outDir : List String)
      (fds : List (String × Doc)) (docs : List (String × OutDoc)),
      extractDocsLoop oracle outDir fds docs =
        ((writeTargets outDir fds docs).filter (fun w => !oracle w.1),
          ((writeTargets outDir fds docs).filter (fun w => !oracle w.1)).length)) ∧
    (∀ (outDir : List String) (fds : List (String × Doc))
      (docs : List (String × OutDoc)),
      extractDocsLoop (fun _ => false) outDir fds docs =
        (writeTargets outDir fds docs, docs.length)) :=
  ⟨fun oracle outDir fds docs => extractDocsLoop_eq oracle outDir fds docs,
    fun outDir fds docs => extractDocsLoop_nofail outDir fds docs⟩

/-! ## Folder-path resolution (claim C5) -/

/-- C5: a content document with a falsy `folder` field resolves to the pack
root; otherwise the resolver walks parent references through
bang-folders-bang keys, prepending each sanitized folder name; a missing
folder reference produces a warning and stops the walk with the path
accumulated so far (the root when the first hop is missing); and the
document is written at the resolved path in every case. -/
theorem C5_folder_path_resolution :
    (∀ (fds : List (String × Doc)) (d : Doc),
      truthyOpt d.folder = false → resolveFolderPath fds d = ([], false)) ∧
    (∀ (fds : List (String × Doc)) (fuel : Nat) (fid : String),
      fid.data.isEmpty = false →
      assocFind fds (folderKeyOf fid) = none →
      folderWalk fds (fuel + 1) (some fid) = ([], true)) ∧
    (∀ (fds : List (String × Doc)) (fuel : Nat) (fid : String) (fd : Doc),
      fid.data.isEmpty = false →
      assocFind fds (folderKeyOf fid) = some fd →
      folderWalk fds (fuel + 1) (some fid) =
        ((folderWalk fds fuel fd.folder).1 ++ [sanitizeFilename fd.name],
          (folderWalk fds fuel fd.folder).2)) ∧
    (∀ (store : List (String × Doc)) (outDir : List String)
      (e : String × OutDoc), e ∈ organizeDocuments store →
      (outDir ++ (resolveFolderPath (foldersOf store) e.2.base).1 ++
          [docFileName e.2.base], FileContent.docJson e.2) ∈
        (extractDocsLoop (fun _ => false) outDir (foldersOf store)
          (organizeDocuments store)).1) := by
  refine ⟨?_, ?_, ?_, ?_⟩
  · intro fds d h
    unfold resolveFolderPath
    rw [if_neg (by simp [h])]
  · intro fds fuel fid h1 h2
    unfold folderWalk
    rw [if_neg (by simp [h1]), h2]
  · intro fds fuel fid fd h1 h2
    conv_lhs => unfold folderWalk
    rw [if_neg (by simp [h1]), h2]
  · intro store outDir e he
    exact extractDocsLoop_mem_nofail he

/-- C5 witness: a first-hop reference to a missing folder stops at the root
with a warning. -/
theorem C5_witness : folderWalk [] 5 (some "G") = ([], true) :=
  C5_folder_path_resolution.2.1 [] 4 "G" (by decide) rfl

/-! ## Unmatched keys (claim C9) -/

theorem strStarts_folders_of_bang {k : String}
    (h : strStarts "!folders!" k = true) : strStarts "!folders" k = true := by
  unfold strStarts at h ⊢
  rw [ List.isPrefixOf_iff_prefix] at h ⊢
  exact List.IsPrefix.trans (by decide) h

/-- C9: a non-folder key (one the folder pass does not collect, lacking the
bang-folders prefix) that does not match the anchored
bang-type-bang-id pattern is silently ignored by the partition: it is
classified neither content nor embedded, contributes to no output file, is
not counted, and raises no error — the run's entire output is unchanged by
its presence. -/
theorem C9_unmatched_key_ignored (k : String)
    (hnf : strStarts "!folders" k = false) (hp : parseKey k = none) :
    classifyKey k = KeyKind.skip ∧
    (∀ (oracle : List String → Bool) (outDir : List String)
      (pre post : List (String × Doc)) (d : Doc),
      allWrites oracle outDir (pre ++ (k, d) :: post) =
        allWrites oracle outDir (pre ++ post)) := by
  have hb : strStarts "!folders!" k = false := by
    cases hbb : strStarts "!folders!" k
    · rfl
    · rw [strStarts_folders_of_bang hbb] at hnf
      cases hnf
  have hcl : classifyKey k = KeyKind.skip := by
    unfold classifyKey
    rw [if_neg (by simp [hb]), hp]
  refine ⟨hcl, ?_⟩
  intro oracle outDir pre post d
  have hfw : folderWrites outDir (pre ++ (k, d) :: post) =
      folderWrites outDir (pre ++ post) := by
    unfold folderWrites
    rw [foldersOf_skipmid hnf pre post d]
  simp only [allWrites]
  rw [organizeDocuments_skipmid hcl pre post d,
    foldersOf_skipmid hnf pre post d, hfw]

/-- C9 witness: a key with no bang structure is invisible to the whole
run. -/
theorem C9_witness :
    classifyKey "nokey" = KeyKind.skip ∧
    allWrites (fun _ => false) ["packsrc", "actors"]
        ([] ++ ("nokey", (⟨none, none, 0⟩ : Doc)) :: []) =
      allWrites (fun _ => false) ["packsrc", "actors"] ([] ++ []) := by
  have h := C9_unmatched_key_ignored "nokey" (by decide) (by decide)
  exact ⟨h.1, h.2 (fun _ => false) ["packsrc", "actors"] [] [] ⟨none, none, 0⟩⟩

/-! ## Malformed embedded keys (claim C7) -/

theorem classifyKey_malformed_emb {k ts ids : String}
    (hp : parseKey k = some (ts, ids)) (hdot : ts.data.contains '.' = true)
    (hmiss : (splitDot ids.data).headD [] = [] ∨
      ((splitDot ids.data).drop 1).headD [] = []) :
    classifyKey k = KeyKind.skip ∨ classifyKey k = KeyKind.folderDoc := by
  by_cases hf : strStarts "!folders!" k = true
  · right
    unfold classifyKey
    rw [if_pos hf]
  · left
    unfold classifyKey
    rw [if_neg hf]
    simp only [hp, hdot, if_true]
    rcases hmiss with h1 | h2
    · rw [List.headD_eq_head?_getD] at h1
      cases hh : ((splitDot ids.data).drop 1).head? with
      | none => simp [hh]
      | some cid => simp [hh, h1]
    · cases hh : ((splitDot ids.data).drop 1).head? with
      | none => simp [hh]
      | some cid =>
        have hcid : cid = [] := by
          rw [List.headD_eq_head?_getD, hh] at h2
          exact h2
        subst hcid
        simp [hh]

theorem organizePass_inertmid {k : String}
    (h : classifyKey k = KeyKind.skip ∨ classifyKey k = KeyKind.folderDoc)
    (pre post : List (String × Doc)) (d : Doc) :
    organizePass (pre ++ (k, d) :: post) = organizePass (pre ++ post) := by
  unfold organizePass
  rw [List.foldl_append, List.foldl_append, List.foldl_cons]
  rcases h with h | h <;>
    rw [show orgStep (List.foldl orgStep ([], []) pre) (k, d) =
      List.foldl orgStep ([], []) pre from by simp [orgStep, h]]

theorem organizeDocuments_inertmid {k : String}
    (h : classifyKey k = KeyKind.skip ∨ classifyKey k = KeyKind.folderDoc)
    (pre post : List (String × Doc)) (d : Doc) :
    organizeDocuments (pre ++ (k, d) :: post) =
      organizeDocuments (pre ++ post) := by
  unfold organizeDocuments
  rw [organizePass_inertmid h pre post d]

/-- C7 counterexample: the record at key bang-folders.x-bang-P1 has a dotted
type section and no child-id half, so the claim says it is written to no
output file — yet the folder pass collects it (its key starts with
bang-folders) and writes it into the combined _folders.json. -/
theorem C7_counterexample :
    parseKey "!folders.x!P1" = some ("folders.x", "P1") ∧
    ("folders.x".data.contains '.') = true ∧
    ((splitDot "P1".data).drop 1).headD [] = [] ∧
    folderWrites ["packsrc", "actors"]
        [("!folders.x!P1", (⟨some "Claw", none, 7⟩ : Doc))] =
      [(["packsrc", "actors", "_folders.json"],
        FileContent.foldersJson
          [("!folders.x!P1", ⟨some "Claw", none, 7⟩)])] :=
  ⟨by decide, by decide, by decide, by decide⟩

/-- C7 (amended): a record whose key has a dot in its type section but
whose id section lacks either id half is excluded from the content/embedded
partition — classified neither content nor embedded, attached to no parent,
producing no document file and no error, the partition output unchanged by
its presence — but it still appears in the combined _folders.json exactly
when its key begins with bang-folders. -/
theorem C7_malformed_embedded_amended (k ts ids : String)
    (hp : parseKey k = some (ts, ids)) (hdot : ts.data.contains '.' = true)
    (hmiss : (splitDot ids.data).headD [] = [] ∨
      ((splitDot ids.data).drop 1).headD [] = []) :
    ((classifyKey k).isContent = false ∧
      ∀ p c i, classifyKey k ≠ KeyKind.emb p c i) ∧
    (∀ (pre post : List (String × Doc)) (d : Doc),
      organizeDocuments (pre ++ (k, d) :: post) =
        organizeDocuments (pre ++ post)) ∧
    (∀ (pre post : List (String × Doc)) (d : Doc),
      ((k, d) ∈ foldersOf (pre ++ (k, d) :: post) ↔
        strStarts "!folders" k = true)) := by
  have hcl := classifyKey_malformed_emb hp hdot hmiss
  refine ⟨⟨?_, ?_⟩, ?_, ?_⟩
  · rcases hcl with h | h <;> simp [h, KeyKind.isContent]
  · intro p c i
    rcases hcl with h | h <;> simp [h]
  · intro pre post d
    exact organizeDocuments_inertmid hcl pre post d
  · intro pre post d
    simp [foldersOf, List.mem_filter]

/-- C7 witness: a dotted-type key with no child id is invisible to the
partition. -/
theorem C7_witness :
    organizeDocuments
        ([] ++ ("!actor.item!P1", (⟨some "Sword", none, 2⟩ : Doc)) ::
          [("!actor!P1", (⟨some "Hero", none, 1⟩ : Doc))]) =
      organizeDocuments ([] ++ [("!actor!P1", ⟨some "Hero", none, 1⟩)]) := by
  have h := C7_malformed_embedded_amended "!actor.item!P1" "actor.item" "P1"
    (by decide) (by decide) (Or.inr (by decide))
  exact h.2.1 [] [("!actor!P1", ⟨some "Hero", none, 1⟩)] ⟨some "Sword", none, 2⟩

/-! ## Embedded-document nesting (claim C4) -/

theorem embFor_eq_triples (store : List (String × Doc)) (q : String) :
    embFor store q = (embTriples store).filterMap
      (fun t => if t.2.1 = q then some t.2.2 else none) := by
  induction store with
  | nil => rfl
  | cons kv l ih =>
    cases hcl : classifyKey kv.1
    case emb pk ct ci =>
      have h1 : embFor (kv :: l) q =
          if pk = q then kv.2 :: embFor l q else embFor l q := by
        by_cases hpq : pk = q <;>
          simp [embFor, List.filterMap_cons, hcl, hpq]
      have h2 : embTriples (kv :: l) = (kv.1, pk, kv.2) :: embTriples l := by
        simp [embTriples, List.filterMap_cons, hcl]
      rw [h1, h2, List.filterMap_cons]
      by_cases hpq : pk = q <;> simp [hpq, ih]
    all_goals
      have h1 : embFor (kv :: l) q = embFor l q := by
        simp [embFor, List.filterMap_cons, hcl]
      have h2 : embTriples (kv :: l) = embTriples l := by
        simp [embTriples, List.filterMap_cons, hcl]
      rw [h1, h2]
      exact ih

theorem embFor_of_one {store : List (String × Doc)} {k pk : String} {c : Doc}
    (hone : embTriples store = [(k, pk, c)]) :
    embFor store pk = [c] ∧ ∀ q, q ≠ pk → embFor store q = [] := by
  constructor
  · rw [embFor_eq_triples, hone]
    simp
  · intro q hq
    rw [embFor_eq_triples, hone]
    simp [Ne.symm hq]

/-- C4 counterexample: a store whose single record is the embedded-pattern
key bang-folders.i-bang-P1.C1 with the parent key absent.  The claim says
the child's body then appears in no output file; but the folder pass
collects the record (its key starts with bang-folders) and writes its body
into _folders.json. -/
theorem C4_counterexample :
    classifyKey "!folders.i!P1.C1" = KeyKind.emb "!folders!P1" "i" "C1" ∧
    (∀ v : Doc, ("!folders!P1", v) ∉
      [("!folders.i!P1.C1", (⟨some "Claw", none, 7⟩ : Doc))]) ∧
    (allWrites (fun _ => false) ["packsrc", "actors"]
        [("!folders.i!P1.C1", (⟨some "Claw", none, 7⟩ : Doc))]).1 =
      [(["packsrc", "actors", "_folders.json"],
        FileContent.foldersJson
          [("!folders.i!P1.C1", ⟨some "Claw", none, 7⟩)])] := by
  refine ⟨by decide, ?_, by decide⟩
  intro v hv
  simp at hv

/-- C4 (amended): for a store with unique keys containing exactly one
embedded-pattern record, with original key `k`, computed parent key `pk`
and body `c`: when the store contains a top-level content document at `pk`,
that parent's output file carries an `embedded` array with exactly the one
element `c`; when `pk` is absent from the store, no document output file
carries any `embedded` array and no error is raised — though the record
itself can still appear in _folders.json when its key begins with
bang-folders. -/
theorem C4_embedded_nesting_amended
    (store : List (String × Doc)) (k pk : String) (c : Doc)
    (outDir : List String)
    (hnd : (store.map Prod.fst).Nodup)
    (hone : embTriples store = [(k, pk, c)]) :
    (∀ pd : Doc, (pk, pd) ∈ store → (classifyKey pk).isContent = true →
      (outDir ++ (resolveFolderPath (foldersOf store) pd).1 ++
          [docFileName pd],
        FileContent.docJson { base := pd, embedded := some [c] }) ∈
        (extractDocsLoop (fun _ => false) outDir (foldersOf store)
          (organizeDocuments store)).1) ∧
    ((∀ v : Doc, (pk, v) ∉ store) →
      ∀ e ∈ organizeDocuments store, e.2.embedded = none) := by
  obtain ⟨hpk, hother⟩ := embFor_of_one hone
  constructor
  · intro pd hmem hcont
    have hce : (pk, pd) ∈ contentEntries store :=
      List.mem_filter.2 ⟨hmem, hcont⟩
    have hopt : embOptFor store pk = some [c] := by
      unfold embOptFor
      rw [hpk]
      rfl
    have horg : (pk, ({ base := pd, embedded := some [c] } : OutDoc)) ∈
        organizeDocuments store := by
      rw [organizeDocuments_eq hnd]
      have hm := List.mem_map_of_mem
        (fun e : String × Doc =>
          (e.1, ({ base := e.2, embedded := embOptFor store e.1 } : OutDoc)))
        hce
      simpa [hopt] using hm
    exact extractDocsLoop_mem_nofail horg
  · intro habs e he
    rw [organizeDocuments_eq hnd] at he
    obtain ⟨x, hx, rfl⟩ := List.mem_map.1 he
    show embOptFor store x.1 = none
    have hxs : x ∈ store := (List.mem_filter.1 hx).1
    have hne : x.1 ≠ pk := by
      intro hcon
      exact habs x.2 (by rw [← hcon]; exact hxs)
    unfold embOptFor
    rw [hother x.1 hne]
    rfl

/-- C4 witness: one embedded record plus its parent; the parent's file
carries exactly the child's body. -/
theorem C4_witness :
    (["packsrc", "actors"] ++
        (resolveFolderPath
          (foldersOf [("!actor!P1", (⟨some "Hero", none, 1⟩ : Doc)),
            ("!actor.item!P1.C1", (⟨some "Sword", none, 2⟩ : Doc))])
          ⟨some "Hero", none, 1⟩).1 ++
        [docFileName ⟨some "Hero", none, 1⟩],
      FileContent.docJson
        { base := ⟨some "Hero", none, 1⟩,
          embedded := some [⟨some "Sword", none, 2⟩] }) ∈
      (extractDocsLoop (fun _ => false) ["packsrc", "actors"]
        (foldersOf [("!actor!P1", (⟨some "Hero", none, 1⟩ : Doc)),
          ("!actor.item!P1.C1", (⟨some "Sword", none, 2⟩ : Doc))])
        (organizeDocuments
          [("!actor!P1", (⟨some "Hero", none, 1⟩ : Doc)),
            ("!actor.item!P1.C1", (⟨some "Sword", none, 2⟩ : Doc))])).1 :=
  (C4_embedded_nesting_amended
    [("!actor!P1", ⟨some "Hero", none, 1⟩),
      ("!actor.item!P1.C1", ⟨some "Sword", none, 2⟩)]
    "!actor.item!P1.C1" "!actor!P1" ⟨some "Sword", none, 2⟩
    ["packsrc", "actors"] (by decide) (by decide)).1
    ⟨some "Hero", none, 1⟩ (by decide) (by decide)

/-! ## Folder-key prefixes (claim C3) -/

theorem classifyKey_eq_folderDoc_iff (k : String) :
    classifyKey k = KeyKind.folderDoc ↔ strStarts "!folders!" k = true := by
  constructor
  · intro hcl
    by_contra hs
    replace hs : strStarts "!folders!" k = false := by
      cases h : strStarts "!folders!" k
      · rfl
      · exact absurd h hs
    unfold classifyKey at hcl
    rw [if_neg (by simp [hs])] at hcl
    cases hp : parseKey k with
    | none =>
      rw [hp] at hcl
      cases hcl
    | some tsids =>
      obtain ⟨ts, ids⟩ := tsids
      rw [hp] at hcl
      by_cases hdot : ts.data.contains '.' = true
      · simp only [hdot, if_true] at hcl
        cases hh : ((splitDot ids.data).drop 1).head? with
        | none =>
          simp only [hh] at hcl
          cases hcl
        | some cid =>
          simp only [hh] at hcl
          split at hcl
          · cases hcl
          · cases hcl
      · have hdot' : ts.data.contains '.' = false := by
          cases h : ts.data.contains '.'
          · rfl
          · exact absurd h hdot
        simp only [hdot', Bool.false_eq_true, if_false] at hcl
        cases hcl
  · intro hs
    unfold classifyKey
    rw [if_pos hs]

/-- C3 counterexample: the key bang-foldersextra-bang-id1 does not have the
bang-folders-bang prefix the claim requires for FolderDocument treatment,
yet the folder pass collects it into _folders.json (the code tests only the
shorter bang-folders prefix) — and the same record is simultaneously
processed as a content document by the partition, so it is not excluded
either. -/
theorem C3_counterexample :
    strStarts "!folders!" "!foldersextra!id1" = false ∧
    foldersOf [("!foldersextra!id1", (⟨some "X", none, 0⟩ : Doc))] =
      [("!foldersextra!id1", ⟨some "X", none, 0⟩)] ∧
    (organizeDocuments
        [("!foldersextra!id1", (⟨some "X", none, 0⟩ : Doc))]).map Prod.fst =
      ["!foldersextra!id1"] ∧
    folderWrites ["packsrc", "actors"]
        [("!foldersextra!id1", (⟨some "X", none, 0⟩ : Doc))] ≠ [] :=
  ⟨by decide, by decide, by decide, by decide⟩

/-- C3 (amended): a key is collected into the combined _folders.json
mapping exactly when it has the prefix bang-folders (with no trailing bang
required), while it is excluded from the content/embedded partition exactly
when it has the longer prefix bang-folders-bang; the combined file is
created exactly when the collected mapping is non-empty, and then contains
precisely that mapping. -/
theorem C3_amended_folder_collection (store : List (String × Doc))
    (outDir : List String) (k : String) (d : Doc) :
    ((k, d) ∈ foldersOf store ↔
      (strStarts "!folders" k = true ∧ (k, d) ∈ store)) ∧
    (classifyKey k = KeyKind.folderDoc ↔ strStarts "!folders!" k = true) ∧
    (folderWrites outDir store = [] ↔ foldersOf store = []) ∧
    (foldersOf store ≠ [] →
      folderWrites outDir store =
        [(outDir ++ ["_folders.json"],
          FileContent.foldersJson (foldersOf store))]) := by
  refine ⟨?_, classifyKey_eq_folderDoc_iff k, ?_, ?_⟩
  · simp [foldersOf, List.mem_filter, and_comm]
  · by_cases hf : (foldersOf store).isEmpty = true
    · constructor
      · intro _
        exact List.isEmpty_iff.1 hf
      · intro _
        simp [folderWrites, hf]
    · constructor
      · intro h
        simp only [folderWrites, if_neg hf] at h
        exact absurd h (by simp)
      · intro h
        exact absurd (List.isEmpty_iff.2 h) hf
  · intro hne
    simp only [folderWrites]
    rw [if_neg (fun hcon => hne (List.isEmpty_iff.1 hcon))]

/-- C3 witness: one genuine folder document produces the combined folders
file. -/
theorem C3_witness :
    folderWrites ["packsrc", "actors"]
        [("!folders!f1", (⟨some "M", none, 0⟩ : Doc))] =
      [(["packsrc", "actors"] ++ ["_folders.json"],
        FileContent.foldersJson
          (foldersOf [("!folders!f1", (⟨some "M", none, 0⟩ : Doc))]))] :=
  (C3_amended_folder_collection
    [("!folders!f1", ⟨some "M", none, 0⟩)] ["packsrc", "actors"]
    "!folders!f1" ⟨some "M", none, 0⟩).2.2.2 (by decide)

/-! ## The un-awaited pre-clean (claims C1 and C2)

`extract` calls `this.deletePackFolder(this.packName)` without `await`:
the returned promise is dropped.  Consequently (i) the recursive delete is
not ordered before the run's subsequent writes — the event loop may
complete it at any point, including after them — and (ii) a rejection of
that promise never reaches `extract`'s caller. -/

/-- C2: the claim says absence of the output directory is tolerated while
any other deletion failure makes the whole extraction fail with no output
written.  `deletePackFolder` itself behaves exactly so (ENOENT caught,
other errors rethrown wrapped) — but `extract` discards its un-awaited
promise, so even with the directory present and the delete failing,
`extract` still succeeds and produces all its writes.  The source comment
and the wrapped rethrow show the claim matches the intent; the missing
`await` is the slip. -/
theorem C2_delete_failure_not_fatal :
    deletePackFolder false false = Except.ok () ∧
    deletePackFolder false true = Except.ok () ∧
    deletePackFolder true true =
      Except.error "Failed to delete pack folder" ∧
    ∀ (outDir : List String) (store : List (String × Doc)),
      extract true true true outDir store =
        Except.ok (allWrites (fun _ => false) outDir store) :=
  ⟨rfl, rfl, rfl, fun _ _ => rfl⟩

/-- C1: the claim requires each run to delete the pre-existing output
directory and then rebuild it, every write happening after the deletion,
making reruns byte-identical.  Because the source never awaits
`deletePackFolder`, the recursive delete is unordered with the writes.
Under the claimed ordering (`extractFSSpecOrder`) the fresh Goblin.json
exists and the stale Old.json is gone; under the admissible schedule where
the un-awaited delete completes last (`extractFSDeleteLast`) the same run's
fresh output is destroyed.  The orderings disagree on the resulting output
directory, so the code does not guarantee the claimed behavior. -/
theorem C1_delete_not_ordered_before_writes :
    extractFSSpecOrder ["packsrc", "actors"]
        [("!actors!A1", (⟨some "Goblin", none, 3⟩ : Doc))]
        (fun p => if p = ["packsrc", "actors", "Old.json"] then
          some (FileContent.docJson ⟨⟨some "Old", none, 0⟩, none⟩) else none)
        ["packsrc", "actors", "Goblin.json"] =
      some (FileContent.docJson ⟨⟨some "Goblin", none, 3⟩, none⟩) ∧
    extractFSSpecOrder ["packsrc", "actors"]
        [("!actors!A1", (⟨some "Goblin", none, 3⟩ : Doc))]
        (fun p => if p = ["packsrc", "actors", "Old.json"] then
          some (FileContent.docJson ⟨⟨some "Old", none, 0⟩, none⟩) else none)
        ["packsrc", "actors", "Old.json"] = none ∧
    extractFSDeleteLast ["packsrc", "actors"]
        [("!actors!A1", (⟨some "Goblin", none, 3⟩ : Doc))]
        (fun p => if p = ["packsrc", "actors", "Old.json"] then
          some (FileContent.docJson ⟨⟨some "Old", none, 0⟩, none⟩) else none)
        ["packsrc", "actors", "Goblin.json"] = none :=
  ⟨by decide, by decide, by decide⟩

end DbConvert
